import Mathlib

/-!
Verification of the encordingman core (src-tauri/src): the encoding scorer
(scorer.rs), the detection / conversion engine (encoder.rs) and the batch
orchestrator (lib.rs), shallowly embedded in Lean.

Bytes are modelled as `Nat` (the source works on `&[u8]`), Rust strings as
`List Char` (Rust `String` holds valid Unicode scalar values, exactly what
Lean's `Char` guarantees), and `f32`/`f64` arithmetic as exact rational
arithmetic over `ℚ`.  The decoders of the external `encoding_rs` crate are
treated as parameters (a `DecFamily`): every theorem about code that calls
`encoding.decode` is proved for an arbitrary decode family, and concrete
decoder models (UTF-8, windows-1252) are supplied where a claim needs a
concrete instance.
-/

/-- The seven candidate encodings used by the program
(scorer.rs `CANDIDATE_ENCODINGS`, encoder.rs `supported_encodings`). -/
inductive EncodingId where
  | shiftJis
  | eucJp
  | iso2022Jp
  | utf8
  | utf16le
  | utf16be
  | windows1252
  deriving DecidableEq, Repr

/-- ASCII lowercasing (models Rust `str::to_lowercase` on the ASCII-only
strings this program compares with it; written over the character list so
that it computes by kernel reduction). -/
def asciiLower (s : String) : String := ⟨s.data.map Char.toLower⟩

/-- Models `encoding_rs::Encoding::for_label` restricted to the labels this
program ever passes to it (the canonical names of the seven candidates,
matched case-insensitively, which is how WHATWG label resolution treats
them). Any other label resolves to `none`. -/
def forLabel (label : String) : Option EncodingId :=
  let l := asciiLower label
  if l = "shift_jis" then some .shiftJis
  else if l = "euc-jp" then some .eucJp
  else if l = "iso-2022-jp" then some .iso2022Jp
  else if l = "utf-8" then some .utf8
  else if l = "utf-16le" then some .utf16le
  else if l = "utf-16be" then some .utf16be
  else if l = "windows-1252" then some .windows1252
  else none

/-- A family of decoders, one per supported encoding: models the behaviour of
`encoding_rs` `Encoding::decode` (decoded characters, `had_errors` flag). -/
def DecFamily : Type := EncodingId → List Nat → List Char × Bool

/-! ## UTF-8 encoding and strict decoding (models Rust std) -/

/-- UTF-8 encoding of one Unicode scalar value, as Rust's
`char::encode_utf8` / `str::as_bytes` produce it. -/
def utf8EncodeChar (c : Nat) : List Nat :=
  if c < 0x80 then [c]
  else if c < 0x800 then [0xC0 + c / 64, 0x80 + c % 64]
  else if c < 0x10000 then [0xE0 + c / 4096, 0x80 + c / 64 % 64, 0x80 + c % 64]
  else [0xF0 + c / 262144, 0x80 + c / 4096 % 64, 0x80 + c / 64 % 64, 0x80 + c % 64]

/-- The UTF-8 byte sequence of a Rust string (`str::as_bytes`). -/
def utf8Encode : List Char → List Nat
  | [] => []
  | c :: t => utf8EncodeChar c.toNat ++ utf8Encode t

/-- One step of strict UTF-8 decoding: given the first byte and the
remaining bytes, return the decoded Unicode scalar value and what is left,
or `none` if no well-formed sequence starts here.  This is exact UTF-8
validation as in Rust's `std::str::from_utf8`: lead bytes `C0`/`C1` and
`F5`.. are rejected, and the `E0`/`ED`/`F0`/`F4` second-byte restrictions
rule out overlong forms, surrogates and values above U+10FFFF. -/
def utf8DecodeOne (b : Nat) (rest : List Nat) : Option (Nat × List Nat) :=
  if b < 0x80 then some (b, rest)
  else if b < 0xC2 then none
  else if b < 0xE0 then
    match rest with
    | b1 :: rest2 =>
      if 0x80 ≤ b1 ∧ b1 < 0xC0 then some ((b - 0xC0) * 64 + (b1 - 0x80), rest2) else none
    | [] => none
  else if b < 0xF0 then
    match rest with
    | b1 :: b2 :: rest2 =>
      if (0x80 ≤ b1 ∧ b1 < 0xC0) ∧ (0x80 ≤ b2 ∧ b2 < 0xC0) ∧
          ¬(b = 0xE0 ∧ b1 < 0xA0) ∧ ¬(b = 0xED ∧ 0xA0 ≤ b1) then
        some ((b - 0xE0) * 4096 + (b1 - 0x80) * 64 + (b2 - 0x80), rest2)
      else none
    | _ => none
  else if b < 0xF5 then
    match rest with
    | b1 :: b2 :: b3 :: rest2 =>
      if (0x80 ≤ b1 ∧ b1 < 0xC0) ∧ (0x80 ≤ b2 ∧ b2 < 0xC0) ∧ (0x80 ≤ b3 ∧ b3 < 0xC0) ∧
          ¬(b = 0xF0 ∧ b1 < 0x90) ∧ ¬(b = 0xF4 ∧ 0x90 ≤ b1) then
        some ((b - 0xF0) * 262144 + (b1 - 0x80) * 4096 + (b2 - 0x80) * 64 + (b3 - 0x80), rest2)
      else none
    | _ => none
  else none

/-- Strict UTF-8 decoding by iterating `utf8DecodeOne`; structural on a
fuel argument so the definition computes.  Each step consumes at least one
byte, so fuel equal to the list length (see `utf8DecodeAux`) always
suffices and the `0, _ :: _` case is unreachable from `utf8DecodeAux`. -/
def utf8DecodeFuel : Nat → List Nat → Option (List Nat)
  | _, [] => some []
  | 0, _ :: _ => none
  | fuel + 1, b :: rest =>
    match utf8DecodeOne b rest with
    | some (c, r) => (utf8DecodeFuel fuel r).map (fun cs => c :: cs)
    | none => none

/-- Strict UTF-8 decoding into Unicode scalar values, models Rust's
`std::str::from_utf8` validation. `none` means the bytes are not valid
UTF-8. -/
def utf8DecodeAux (l : List Nat) : Option (List Nat) :=
  utf8DecodeFuel l.length l

/-! ## encoder.rs -/

/-- Result of encoding detection (encoder.rs `DetectionResult`);
the `f32` confidence is modelled in `ℚ`. -/
structure DetectionResult where
  encoding_name : String
  confidence : ℚ
  deriving DecidableEq, Repr

/-- encoder.rs `strip_bom`: drop one leading UTF-8 BOM (`EF BB BF`) or
UTF-16 BOM (`FF FE` / `FE FF`).  The source tests the prefix bytes with
length guards; the three prefix patterns below are exactly those tests. -/
def strip_bom : List Nat → List Nat
  | 0xEF :: 0xBB :: 0xBF :: rest => rest
  | 0xFF :: 0xFE :: rest => rest
  | 0xFE :: 0xFF :: rest => rest
  | data => data

/-- Whether the data begins with one of the three BOMs that `strip_bom`
strips (a helper for stating when `strip_bom` acts as the identity). -/
def hasBom : List Nat → Bool
  | 0xEF :: 0xBB :: 0xBF :: _ => true
  | 0xFF :: 0xFE :: _ => true
  | 0xFE :: 0xFF :: _ => true
  | _ => false

/-- encoder.rs `is_already_utf8`: strip an optional UTF-8 BOM (only the
UTF-8 one) and check that the remainder is valid UTF-8
(`std::str::from_utf8(content).is_ok()`). -/
def is_already_utf8 (data : List Nat) : Bool :=
  let content :=
    match data with
    | 0xEF :: 0xBB :: 0xBF :: rest => rest
    | d => d
  (utf8DecodeAux content).isSome

/-- encoder.rs `convert_to_utf8_bom`, parameterised by the decode family:
strip any BOM, resolve the encoding label (error if unknown), decode
lossily, and emit a UTF-8 BOM followed by the UTF-8 bytes of the decoded
string. -/
def convert_to_utf8_bom (dec : DecFamily) (data : List Nat) (source_encoding_name : String) :
    Except String (List Nat) :=
  let source_data := strip_bom data
  match forLabel source_encoding_name with
  | none => .error ("Unknown encoding: " ++ source_encoding_name)
  | some encoding =>
    let decoded := (dec encoding source_data).1
    .ok ([0xEF, 0xBB, 0xBF] ++ utf8Encode decoded)

/-! ## scorer.rs -/

/-- scorer.rs `EncodingScore`; the `f64` score is modelled in `ℚ`. -/
structure EncodingScore where
  encoding_name : String
  score : ℚ
  replacement_count : Nat
  japanese_char_count : Nat
  total_chars : Nat
  deriving DecidableEq, Repr

/-- scorer.rs `CANDIDATE_ENCODINGS`, in its fixed iteration order. -/
def CANDIDATE_ENCODINGS : List String :=
  ["Shift_JIS", "EUC-JP", "ISO-2022-JP", "UTF-8", "UTF-16LE", "UTF-16BE", "windows-1252"]

/-- scorer.rs `is_japanese_char`: the fixed recognized-script ranges. -/
def is_japanese_char (ch : Char) : Bool :=
  let n := ch.toNat
  (0x3040 ≤ n && n ≤ 0x309F) ||
  (0x30A0 ≤ n && n ≤ 0x30FF) ||
  (0x4E00 ≤ n && n ≤ 0x9FFF) ||
  (0x3400 ≤ n && n ≤ 0x4DBF) ||
  (0xF900 ≤ n && n ≤ 0xFAFF) ||
  (0xFF00 ≤ n && n ≤ 0xFFEF) ||
  (0x3000 ≤ n && n ≤ 0x303F)

/-- Models Rust `char::is_control` (the Unicode Cc category:
U+0000..U+001F and U+007F..U+009F). -/
def isControlChar (ch : Char) : Bool :=
  ch.toNat < 0x20 || (0x7F ≤ ch.toNat && ch.toNat ≤ 0x9F)

/-- scorer.rs `score_encoding`, applied to the result of the decode
(`decoded`, `had_errors`).  The single pass with three counters over the
decoded characters is modelled by three `countP`s over the same list; the
`saturating_sub` is Nat subtraction (which saturates). -/
def score_encoding (name : String) (decoded : List Char) (had_errors : Bool) : EncodingScore :=
  let total_chars := decoded.length
  if total_chars = 0 then
    { encoding_name := name, score := 0, replacement_count := 0,
      japanese_char_count := 0, total_chars := 0 }
  else
    let replacement_count := decoded.countP (fun ch => ch == Char.ofNat 0xFFFD)
    let japanese_count := decoded.countP is_japanese_char
    let control_count :=
      decoded.countP (fun ch => isControlChar ch && ch != '\n' && ch != '\r' && ch != '\t')
    let replacementFrac : ℚ := (replacement_count : ℚ) / (total_chars : ℚ)
    let validFrac : ℚ := ((total_chars - control_count : Nat) : ℚ) / (total_chars : ℚ)
    let japaneseFrac : ℚ := (japanese_count : ℚ) / (total_chars : ℚ)
    let error_penalty : ℚ := if had_errors then 0.3 else 0
    let score : ℚ :=
      (1 - replacementFrac) * 0.4 + validFrac * 0.2 + japaneseFrac * 0.3 + 0.1 - error_penalty
    { encoding_name := name, score := max score 0, replacement_count := replacement_count,
      japanese_char_count := japanese_count, total_chars := total_chars }

/-- The unsorted score vector of scorer.rs `score_all_encodings` (the
`scores` local before `sort_by`): for each candidate name, resolve the
label and score the decode of the data under it. -/
def rawScores (dec : DecFamily) (data : List Nat) : List EncodingScore :=
  CANDIDATE_ENCODINGS.filterMap (fun name =>
    (forLabel name).map (fun encoding =>
      let d := dec encoding data
      score_encoding name d.1 d.2))

/-- Insert into a list sorted by descending score, after every element with
a strictly greater score (so equal scores keep their existing order). -/
def insertDesc (x : EncodingScore) : List EncodingScore → List EncodingScore
  | [] => [x]
  | h :: t => if h.score > x.score then h :: insertDesc x t else x :: h :: t

/-- Stable sort by descending score.  Models the `sort_by` call of
scorer.rs `score_all_encodings`: Rust's `sort_by` is a stable sort, and the
comparator orders by score descending, treating equal scores as equal
(`partial_cmp ... unwrap_or(Equal)`; scores are never NaN in the `ℚ`
model).  A stable sort under a fixed comparator has a unique result, so
this insertion sort computes the same list. -/
def sortDesc : List EncodingScore → List EncodingScore
  | [] => []
  | h :: t => insertDesc h (sortDesc t)

/-- scorer.rs `score_all_encodings`: score every candidate, best first. -/
def score_all_encodings (dec : DecFamily) (data : List Nat) : List EncodingScore :=
  sortDesc (rawScores dec data)

/-- scorer.rs `best_encoding`: the top-ranked candidate, or the synthetic
zero-score UTF-8 default if the score list is empty. -/
def best_encoding (dec : DecFamily) (data : List Nat) : EncodingScore :=
  match score_all_encodings dec data with
  | best :: _ => best
  | [] =>
    { encoding_name := "UTF-8", score := 0, replacement_count := 0,
      japanese_char_count := 0, total_chars := 0 }

/-- encoder.rs `smart_detect_encoding`: BOM fast path (confidence 1.0),
otherwise the best scorer candidate with its score as confidence.  The
three prefix patterns are exactly the source's length-guarded byte tests. -/
def smart_detect_encoding (dec : DecFamily) (data : List Nat) : DetectionResult :=
  match data with
  | 0xEF :: 0xBB :: 0xBF :: _ => { encoding_name := "UTF-8", confidence := 1 }
  | 0xFF :: 0xFE :: _ => { encoding_name := "UTF-16LE", confidence := 1 }
  | 0xFE :: 0xFF :: _ => { encoding_name := "UTF-16BE", confidence := 1 }
  | _ =>
    let best := best_encoding dec data
    { encoding_name := best.encoding_name, confidence := best.score }

/-! ## Concrete decoder models

`encoding_rs` `Encoding::decode` performs BOM sniffing: when the input
starts with a UTF-8 or UTF-16 BOM, the BOM's encoding is used (and the BOM
removed) regardless of which encoding the method was called on.  The
concrete models below reproduce that, so they need lossy UTF-8 and UTF-16
decoders for totality. -/

/-- Lossy UTF-8 decoding step loop (models `encoding_rs` UTF-8 decode on
BOM-free input): well-formed sequences decode exactly via `utf8DecodeOne`;
a malformed unit consumes one byte, yields one U+FFFD and sets the error
flag (a per-byte approximation of encoding_rs's maximal-subpart error
recovery; on well-formed input, which is all any theorem here evaluates,
the two agree and the flag stays false).  Structural on fuel; fuel equal
to the list length always suffices. -/
def utf8LossyFuel : Nat → List Nat → List Char × Bool
  | _, [] => ([], false)
  | 0, _ :: _ => ([], true)
  | fuel + 1, b :: rest =>
    match utf8DecodeOne b rest with
    | some (c, r) =>
      let t := utf8LossyFuel fuel r
      (Char.ofNat c :: t.1, t.2)
    | none =>
      let t := utf8LossyFuel fuel rest
      (Char.ofNat 0xFFFD :: t.1, true)

/-- Lossy UTF-8 decoding (see `utf8LossyFuel`). -/
def utf8LossyAux (l : List Nat) : List Char × Bool :=
  utf8LossyFuel l.length l

/-- UTF-16 code units to characters: non-surrogates map directly, valid
surrogate pairs combine, unpaired surrogates become U+FFFD with the error
flag set.  Structural on fuel; fuel equal to the unit count suffices. -/
def utf16DecodeUnitsFuel : Nat → List Nat → List Char × Bool
  | _, [] => ([], false)
  | 0, _ :: _ => ([], true)
  | fuel + 1, u :: rest =>
    if u < 0xD800 ∨ 0xE000 ≤ u then
      let r := utf16DecodeUnitsFuel fuel rest
      (Char.ofNat u :: r.1, r.2)
    else if u < 0xDC00 then
      match rest with
      | u2 :: rest2 =>
        if 0xDC00 ≤ u2 ∧ u2 < 0xE000 then
          let r := utf16DecodeUnitsFuel fuel rest2
          (Char.ofNat (0x10000 + (u - 0xD800) * 1024 + (u2 - 0xDC00)) :: r.1, r.2)
        else
          let r := utf16DecodeUnitsFuel fuel (u2 :: rest2)
          (Char.ofNat 0xFFFD :: r.1, true)
      | [] => ([Char.ofNat 0xFFFD], true)
    else
      let r := utf16DecodeUnitsFuel fuel rest
      (Char.ofNat 0xFFFD :: r.1, true)

/-- UTF-16 code units to characters (see `utf16DecodeUnitsFuel`). -/
def utf16DecodeUnits (units : List Nat) : List Char × Bool :=
  utf16DecodeUnitsFuel units.length units

/-- Little-endian bytes to UTF-16 code units; a trailing odd byte is an
error. -/
def utf16lePairs : List Nat → List Nat × Bool
  | [] => ([], false)
  | [_] => ([], true)
  | b0 :: b1 :: rest =>
    let r := utf16lePairs rest
    ((b0 + 256 * b1) :: r.1, r.2)

/-- Big-endian bytes to UTF-16 code units; a trailing odd byte is an
error. -/
def utf16bePairs : List Nat → List Nat × Bool
  | [] => ([], false)
  | [_] => ([], true)
  | b0 :: b1 :: rest =>
    let r := utf16bePairs rest
    ((256 * b0 + b1) :: r.1, r.2)

/-- Lossy UTF-16LE decoding (models encoding_rs UTF-16LE decode on
BOM-free input); a trailing odd byte contributes a final U+FFFD. -/
def utf16leDecode (data : List Nat) : List Char × Bool :=
  let p := utf16lePairs data
  let r := utf16DecodeUnits p.1
  (r.1 ++ (if p.2 then [Char.ofNat 0xFFFD] else []), p.2 || r.2)

/-- Lossy UTF-16BE decoding (models encoding_rs UTF-16BE decode on
BOM-free input); a trailing odd byte contributes a final U+FFFD. -/
def utf16beDecode (data : List Nat) : List Char × Bool :=
  let p := utf16bePairs data
  let r := utf16DecodeUnits p.1
  (r.1 ++ (if p.2 then [Char.ofNat 0xFFFD] else []), p.2 || r.2)

/-- The WHATWG windows-1252 single-byte decode table: bytes 0x80..0x9F map
to the listed code points (including the C1 controls at 0x81, 0x8D, 0x8F,
0x90, 0x9D); every other byte maps to itself.  windows-1252 decoding is
total and never reports an error. -/
def windows1252MapByte (b : Nat) : Nat :=
  if b = 0x80 then 0x20AC
  else if b = 0x82 then 0x201A
  else if b = 0x83 then 0x0192
  else if b = 0x84 then 0x201E
  else if b = 0x85 then 0x2026
  else if b = 0x86 then 0x2020
  else if b = 0x87 then 0x2021
  else if b = 0x88 then 0x02C6
  else if b = 0x89 then 0x2030
  else if b = 0x8A then 0x0160
  else if b = 0x8B then 0x2039
  else if b = 0x8C then 0x0152
  else if b = 0x8E then 0x017D
  else if b = 0x91 then 0x2018
  else if b = 0x92 then 0x2019
  else if b = 0x93 then 0x201C
  else if b = 0x94 then 0x201D
  else if b = 0x95 then 0x2022
  else if b = 0x96 then 0x2013
  else if b = 0x97 then 0x2014
  else if b = 0x98 then 0x02DC
  else if b = 0x99 then 0x2122
  else if b = 0x9A then 0x0161
  else if b = 0x9B then 0x203A
  else if b = 0x9C then 0x0153
  else if b = 0x9E then 0x017E
  else if b = 0x9F then 0x0178
  else b

/-- Models `encoding_rs` `WINDOWS_1252.decode`: BOM sniffing first (a
UTF-8/UTF-16 BOM redirects to that encoding's decoder with the BOM
removed), otherwise the windows-1252 byte table. -/
def windows1252RsDecode (data : List Nat) : List Char × Bool :=
  match data with
  | 0xEF :: 0xBB :: 0xBF :: rest => utf8LossyAux rest
  | 0xFF :: 0xFE :: rest => utf16leDecode rest
  | 0xFE :: 0xFF :: rest => utf16beDecode rest
  | _ => (data.map (fun b => Char.ofNat (windows1252MapByte b)), false)

/-- A concrete decode family for instantiating universally quantified
statements: it gives the windows-1252 model to every encoding identifier;
the statements that mention it only ever apply it at
`EncodingId.windows1252`. -/
def w1252Family : DecFamily := fun _ data => windows1252RsDecode data

/-! ## encoder.rs `is_binary_file` -/

/-- encoder.rs `BINARY_EXTENSIONS`. -/
def BINARY_EXTENSIONS : List String :=
  ["xls", "xlsx", "xlsm", "xlsb",
   "doc", "docx", "docm",
   "ppt", "pptx", "pptm",
   "pdf",
   "zip", "rar", "7z", "gz", "tar",
   "png", "jpg", "jpeg", "gif", "bmp", "ico", "webp", "svg",
   "mp3", "wav", "ogg", "flac",
   "mp4", "avi", "mkv", "mov",
   "exe", "dll", "msi"]

/-- The magic-byte check of encoder.rs `is_binary_file`: only files of at
least 8 bytes are tested, and the first 4 bytes are compared against the
ZIP, OLE2 and PDF signatures. -/
def magicMatch (data : List Nat) : Bool :=
  if 8 ≤ data.length then
    match data with
    | b0 :: b1 :: b2 :: b3 :: _ =>
      (b0 == 0x50 && b1 == 0x4B && b2 == 0x03 && b3 == 0x04) ||
      (b0 == 0xD0 && b1 == 0xCF && b2 == 0x11 && b3 == 0xE0) ||
      (b0 == 0x25 && b1 == 0x50 && b2 == 0x44 && b3 == 0x46)
    | _ => false
  else false

/-- encoder.rs `is_binary_file`, with the file system abstracted: `ext` is
`path.extension()` and `readResult` the outcome of `fs::read(path)`
(`none` when the read fails).  Extension match (lowercased) first, then
the magic-byte check. -/
def is_binary_file (ext : Option String) (readResult : Option (List Nat)) : Bool :=
  (match ext with
   | some e => BINARY_EXTENSIONS.contains (asciiLower e)
   | none => false) ||
  (match readResult with
   | some data => magicMatch data
   | none => false)

/-! ## lib.rs `batch_convert` -/

/-- lib.rs `BatchFileResult`. -/
structure BatchFileResult where
  file_path : String
  file_name : String
  status : String
  detected_encoding : Option String
  error_message : Option String
  deriving DecidableEq, Repr

/-- lib.rs `BatchResult`. -/
structure BatchResult where
  results : List BatchFileResult
  total : Nat
  converted : Nat
  already_utf8 : Nat
  binary : Nat
  errors : Nat
  deriving DecidableEq, Repr

/-- The external world of the batch orchestrator: the decode family plus
the file-system and launcher effects that lib.rs delegates to
(`path.exists()`, `encoder::is_binary_file`, `encoder::read_file_bytes`,
`launcher::create_temp_file`, `path.file_name()`).  Launch results are
discarded by the source (`let _ = launcher::launch_app(..)`), so the
launcher needs no field. -/
structure Env where
  dec : DecFamily
  pathExists : String → Bool
  isBinary : String → Bool
  readBytes : String → Except String (List Nat)
  createTemp : String → List Nat → Except String String
  fileName : String → String

/-- The body of the `for file_path in &file_paths` loop of lib.rs
`batch_convert`, as a function from the path to the `BatchFileResult` it
pushes.  Branches in source order: missing file, binary passthrough,
read result, already-UTF-8, detect + convert + temp file. -/
def processOne (env : Env) (p : String) : BatchFileResult :=
  let file_name := env.fileName p
  if !env.pathExists p then
    { file_path := p, file_name := file_name, status := "error",
      detected_encoding := none, error_message := some "File not found" }
  else if env.isBinary p then
    { file_path := p, file_name := file_name, status := "binary",
      detected_encoding := none, error_message := none }
  else
    match env.readBytes p with
    | .ok data =>
      if is_already_utf8 data then
        { file_path := p, file_name := file_name, status := "already_utf8",
          detected_encoding := some "UTF-8", error_message := none }
      else
        let detection := smart_detect_encoding env.dec data
        match convert_to_utf8_bom env.dec data detection.encoding_name with
        | .ok converted =>
          match env.createTemp file_name converted with
          | .ok _ =>
            { file_path := p, file_name := file_name, status := "converted",
              detected_encoding := some detection.encoding_name, error_message := none }
          | .error e =>
            { file_path := p, file_name := file_name, status := "error",
              detected_encoding := some detection.encoding_name, error_message := some e }
        | .error e =>
          { file_path := p, file_name := file_name, status := "error",
            detected_encoding := some detection.encoding_name, error_message := some e }
    | .error e =>
      { file_path := p, file_name := file_name, status := "error",
        detected_encoding := none, error_message := some e }

/-- The mutable loop state of lib.rs `batch_convert`: the `results` vector
and the four counters. -/
structure BatchAcc where
  results : List BatchFileResult
  converted : Nat
  already_utf8 : Nat
  binary : Nat
  errors : Nat

/-- One loop iteration of `batch_convert`: push the file's result and bump
the counter of its branch.  In the source each branch increments its own
counter together with pushing a result whose `status` is that branch's
literal, so conditioning the increment on the pushed `status` is the same
coupling. -/
def batchStepAcc (env : Env) (acc : BatchAcc) (p : String) : BatchAcc :=
  let r := processOne env p
  { results := acc.results ++ [r]
  , converted := if r.status = "converted" then acc.converted + 1 else acc.converted
  , already_utf8 := if r.status = "already_utf8" then acc.already_utf8 + 1 else acc.already_utf8
  , binary := if r.status = "binary" then acc.binary + 1 else acc.binary
  , errors := if r.status = "error" then acc.errors + 1 else acc.errors }

/-- lib.rs `batch_convert` (modulo the trailing `Ok(..)` wrapper, which
never fails): run the loop over the paths and assemble the report. -/
def batch_convert (env : Env) (file_paths : List String) : BatchResult :=
  let acc := file_paths.foldl (batchStepAcc env) ⟨[], 0, 0, 0, 0⟩
  { results := acc.results
  , total := file_paths.length
  , converted := acc.converted
  , already_utf8 := acc.already_utf8
  , binary := acc.binary
  , errors := acc.errors }

/-! ## Round-trip properties of the UTF-8 model -/

/-- A decode step never lengthens the remaining input. -/
theorem utf8DecodeOne_length {b : Nat} {rest : List Nat} {c : Nat} {r : List Nat}
    (h : utf8DecodeOne b rest = some (c, r)) : r.length ≤ rest.length := by
  unfold utf8DecodeOne at h
  repeat' split at h
  all_goals simp_all
  all_goals omega

/-- Any fuel at least the list length decodes like any other. -/
theorem utf8DecodeFuel_irrel :
    ∀ (fuel fuel' : Nat) (l : List Nat), l.length ≤ fuel → l.length ≤ fuel' →
      utf8DecodeFuel fuel l = utf8DecodeFuel fuel' l := by
  intro fuel
  induction fuel with
  | zero =>
    intro fuel' l hl _
    have : l = [] := List.length_eq_zero.mp (Nat.le_zero.mp hl)
    subst this
    cases fuel' <;> rfl
  | succ n ih =>
    intro fuel' l hl hl'
    cases l with
    | nil => cases fuel' <;> rfl
    | cons b rest =>
      cases fuel' with
      | zero => simp at hl'
      | succ m =>
        show (match utf8DecodeOne b rest with
          | some (c, r) => (utf8DecodeFuel n r).map (fun cs => c :: cs)
          | none => none) =
          (match utf8DecodeOne b rest with
          | some (c, r) => (utf8DecodeFuel m r).map (fun cs => c :: cs)
          | none => none)
        cases h : utf8DecodeOne b rest with
        | none => rfl
        | some cr =>
          obtain ⟨c, r⟩ := cr
          have hr := utf8DecodeOne_length h
          simp only []
          rw [ih m r (by simp at hl; omega) (by simp at hl'; omega)]

/-- The step equation of `utf8DecodeAux` at the exact fuel. -/
theorem utf8DecodeAux_cons (b : Nat) (rest : List Nat) :
    utf8DecodeAux (b :: rest) =
      match utf8DecodeOne b rest with
      | some (c, r) => (utf8DecodeAux r).map (fun cs => c :: cs)
      | none => none := by
  show utf8DecodeFuel (rest.length + 1) (b :: rest) = _
  show (match utf8DecodeOne b rest with
    | some (c, r) => (utf8DecodeFuel rest.length r).map (fun cs => c :: cs)
    | none => none) = _
  cases h : utf8DecodeOne b rest with
  | none => rfl
  | some cr =>
    obtain ⟨c, r⟩ := cr
    have hr := utf8DecodeOne_length h
    simp only []
    rw [utf8DecodeFuel_irrel rest.length r.length r hr (le_refl _)]
    rfl

/-- Decoding a freshly encoded valid scalar value consumes exactly its
encoding and yields the value back. -/
theorem utf8DecodeOne_encodeChar (c : Nat)
    (hv : c < 0xD800 ∨ 0xE000 ≤ c ∧ c < 0x110000) (rest : List Nat) :
    ∃ b t, utf8EncodeChar c ++ rest = b :: t ∧ utf8DecodeOne b t = some (c, rest) := by
  by_cases h1 : c < 0x80
  · refine ⟨c, rest, by simp [utf8EncodeChar, h1], ?_⟩
    unfold utf8DecodeOne
    rw [if_pos h1]
  · by_cases h2 : c < 0x800
    · refine ⟨0xC0 + c / 64, (0x80 + c % 64) :: rest, by simp [utf8EncodeChar, h1, h2], ?_⟩
      unfold utf8DecodeOne
      rw [if_neg (by omega), if_neg (by omega), if_pos (by omega)]
      show (if 0x80 ≤ 0x80 + c % 64 ∧ 0x80 + c % 64 < 0xC0 then
        some ((0xC0 + c / 64 - 0xC0) * 64 + (0x80 + c % 64 - 0x80), rest) else none) = some (c, rest)
      rw [if_pos (by omega)]
      have hval : (0xC0 + c / 64 - 0xC0) * 64 + (0x80 + c % 64 - 0x80) = c := by omega
      rw [hval]
    · by_cases h3 : c < 0x10000
      · refine ⟨0xE0 + c / 4096, (0x80 + c / 64 % 64) :: (0x80 + c % 64) :: rest,
          by simp [utf8EncodeChar, h1, h2, h3], ?_⟩
        unfold utf8DecodeOne
        rw [if_neg (by omega), if_neg (by omega), if_neg (by omega), if_pos (by omega)]
        show (if (0x80 ≤ 0x80 + c / 64 % 64 ∧ 0x80 + c / 64 % 64 < 0xC0) ∧
            (0x80 ≤ 0x80 + c % 64 ∧ 0x80 + c % 64 < 0xC0) ∧
            ¬(0xE0 + c / 4096 = 0xE0 ∧ 0x80 + c / 64 % 64 < 0xA0) ∧
            ¬(0xE0 + c / 4096 = 0xED ∧ 0xA0 ≤ 0x80 + c / 64 % 64) then
          some ((0xE0 + c / 4096 - 0xE0) * 4096 + (0x80 + c / 64 % 64 - 0x80) * 64 +
            (0x80 + c % 64 - 0x80), rest) else none) = some (c, rest)
        rw [if_pos (by omega)]
        have hval : (0xE0 + c / 4096 - 0xE0) * 4096 + (0x80 + c / 64 % 64 - 0x80) * 64 +
            (0x80 + c % 64 - 0x80) = c := by omega
        rw [hval]
      · refine ⟨0xF0 + c / 262144,
          (0x80 + c / 4096 % 64) :: (0x80 + c / 64 % 64) :: (0x80 + c % 64) :: rest,
          by simp [utf8EncodeChar, h1, h2, h3], ?_⟩
        unfold utf8DecodeOne
        rw [if_neg (by omega), if_neg (by omega), if_neg (by omega), if_neg (by omega),
          if_pos (by omega)]
        show (if (0x80 ≤ 0x80 + c / 4096 % 64 ∧ 0x80 + c / 4096 % 64 < 0xC0) ∧
            (0x80 ≤ 0x80 + c / 64 % 64 ∧ 0x80 + c / 64 % 64 < 0xC0) ∧
            (0x80 ≤ 0x80 + c % 64 ∧ 0x80 + c % 64 < 0xC0) ∧
            ¬(0xF0 + c / 262144 = 0xF0 ∧ 0x80 + c / 4096 % 64 < 0x90) ∧
            ¬(0xF0 + c / 262144 = 0xF4 ∧ 0x90 ≤ 0x80 + c / 4096 % 64) then
          some ((0xF0 + c / 262144 - 0xF0) * 262144 + (0x80 + c / 4096 % 64 - 0x80) * 4096 +
            (0x80 + c / 64 % 64 - 0x80) * 64 + (0x80 + c % 64 - 0x80), rest) else none) =
          some (c, rest)
        rw [if_pos (by omega)]
        have hval : (0xF0 + c / 262144 - 0xF0) * 262144 + (0x80 + c / 4096 % 64 - 0x80) * 4096 +
            (0x80 + c / 64 % 64 - 0x80) * 64 + (0x80 + c % 64 - 0x80) = c := by omega
        rw [hval]

/-- Every Lean `Char` carries a valid Unicode scalar value (as every Rust
`char` does). -/
theorem char_valid_scalar (c : Char) :
    c.toNat < 0xD800 ∨ 0xE000 ≤ c.toNat ∧ c.toNat < 0x110000 := by
  have h := c.valid
  unfold UInt32.isValidChar Nat.isValidChar at h
  show c.val.toNat < 0xD800 ∨ 0xE000 ≤ c.val.toNat ∧ c.val.toNat < 0x110000
  rcases h with h | ⟨h1, h2⟩
  · exact Or.inl h
  · exact Or.inr ⟨by omega, h2⟩

/-- UTF-8 round trip: decoding the UTF-8 bytes of any string gives back
exactly its scalar values. -/
theorem utf8DecodeAux_encode (s : List Char) :
    utf8DecodeAux (utf8Encode s) = some (s.map Char.toNat) := by
  induction s with
  | nil => rfl
  | cons c t ih =>
    show utf8DecodeAux (utf8EncodeChar c.toNat ++ utf8Encode t) = _
    obtain ⟨b, tl, heq, hdec⟩ := utf8DecodeOne_encodeChar c.toNat (char_valid_scalar c) (utf8Encode t)
    rw [heq, utf8DecodeAux_cons, hdec]
    show (utf8DecodeAux (utf8Encode t)).map (fun cs => c.toNat :: cs) = _
    rw [ih]
    rfl

/-! ## Claim C2: BOM fast path -/

/-- C2: for every byte sequence whose prefix is a valid UTF-8 BOM
(EF BB BF), UTF-16LE BOM (FF FE) or UTF-16BE BOM (FE FF),
`smart_detect_encoding` returns the encoding named by that BOM with
confidence exactly 1.0, regardless of the bytes after the BOM.  The
statement holds for every decode family `dec`, so the candidate-scoring
pass (the only consumer of `dec`) is never consulted. -/
theorem C2_bom_fast_path (dec : DecFamily) (rest1 rest2 rest3 : List Nat) :
    smart_detect_encoding dec (0xEF :: 0xBB :: 0xBF :: rest1) =
      { encoding_name := "UTF-8", confidence := 1 } ∧
    smart_detect_encoding dec (0xFF :: 0xFE :: rest2) =
      { encoding_name := "UTF-16LE", confidence := 1 } ∧
    smart_detect_encoding dec (0xFE :: 0xFF :: rest3) =
      { encoding_name := "UTF-16BE", confidence := 1 } :=
  ⟨rfl, rfl, rfl⟩

/-! ## Claim C3: the scoring formula -/

/-- C3: for every decode outcome, the scorer's score equals exactly
max(0, (1 − replacement_ratio)·0.4 + valid_ratio·0.2 + script_ratio·0.3
+ 0.1 − error_penalty), with error_penalty 0.3 when the decode reported an
error and 0 otherwise, except that a total character count of 0 scores
exactly 0; consequently every score is ≥ 0.  The right-hand side spells
the ratios as the spec does — in particular valid_ratio uses true rational
subtraction, checking the code's saturating subtraction against it. -/
theorem C3_score_formula (name : String) (decoded : List Char) (had_errors : Bool) :
    (score_encoding name decoded had_errors).score =
      (if decoded.length = 0 then 0 else
        max 0
          ((1 - (decoded.countP (fun ch => ch == Char.ofNat 0xFFFD) : ℚ) / (decoded.length : ℚ))
              * 0.4
            + (((decoded.length : ℚ) -
                (decoded.countP
                  (fun ch => isControlChar ch && ch != '\n' && ch != '\r' && ch != '\t') : ℚ))
                / (decoded.length : ℚ)) * 0.2
            + ((decoded.countP is_japanese_char : ℚ) / (decoded.length : ℚ)) * 0.3
            + 0.1 - (if had_errors then (0.3 : ℚ) else 0))) ∧
    0 ≤ (score_encoding name decoded had_errors).score := by
  constructor
  · by_cases h0 : decoded.length = 0
    · simp [score_encoding, h0]
    · have hle : decoded.countP
          (fun ch => isControlChar ch && ch != '\n' && ch != '\r' && ch != '\t') ≤
          decoded.length := List.countP_le_length _
      simp only [score_encoding, h0, if_false, ite_false, if_neg h0]
      rw [max_comm]
      congr 2
      rw [Nat.cast_sub hle]
  · by_cases h0 : decoded.length = 0
    · simp [score_encoding, h0]
    · simp only [score_encoding, h0, if_neg h0]
      exact le_max_right _ 0

/-! ## Claim C7: BOM stripping -/

/-- C7 counterexample: `strip_bom` is not idempotent.  On the explicit
input EF BB BF FF FE (a UTF-8 BOM followed by a UTF-16LE BOM), one
application leaves FF FE and a second application strips that too. -/
theorem C7_counterexample :
    strip_bom (strip_bom [0xEF, 0xBB, 0xBF, 0xFF, 0xFE]) ≠
      strip_bom [0xEF, 0xBB, 0xBF, 0xFF, 0xFE] := by decide

/-- strip_bom acts as the identity on data without a leading BOM. -/
theorem strip_bom_eq_self {l : List Nat} (h : hasBom l = false) : strip_bom l = l := by
  unfold strip_bom
  split
  · simp [hasBom] at h
  · simp [hasBom] at h
  · simp [hasBom] at h
  · rfl

/-- C7 amended: stripping twice equals stripping once for every input
whose once-stripped form does not itself begin with a BOM (each
application removes exactly one leading BOM, so only stacked BOMs
violate idempotence). -/
theorem C7_strip_once_amended (x : List Nat) (h : hasBom (strip_bom x) = false) :
    strip_bom (strip_bom x) = strip_bom x :=
  strip_bom_eq_self h

/-- Witness for C7 amended at a concrete input. -/
theorem C7_strip_once_witness :
    hasBom (strip_bom [0xEF, 0xBB, 0xBF, 0x61, 0x62]) = false ∧
    strip_bom (strip_bom [0xEF, 0xBB, 0xBF, 0x61, 0x62]) =
      strip_bom [0xEF, 0xBB, 0xBF, 0x61, 0x62] :=
  ⟨by decide, C7_strip_once_amended [0xEF, 0xBB, 0xBF, 0x61, 0x62] (by decide)⟩

/-! ## Claim C6: the binary classifier -/

/-- C6 counterexample: the code's magic-byte branch fires only on files of
at least 8 bytes, so a 4-byte file that is exactly the ZIP signature, with
a non-denylisted extension, is not classified binary although its first 4
bytes equal the signature — contradicting the claim as stated. -/
theorem C6_counterexample :
    List.take 4 [0x50, 0x4B, 0x03, 0x04] = [0x50, 0x4B, 0x03, 0x04] ∧
    is_binary_file (some "txt") (some [0x50, 0x4B, 0x03, 0x04]) = false := by
  exact ⟨by decide, by decide⟩

/-- C6 amended: for every readable file of at least 8 bytes whose first 4
bytes equal the ZIP, OLE2 or PDF signature, the classifier returns binary
regardless of the extension and of the bytes after the signature; and a
`.xlsx` file is classified binary whatever its content (via the extension
denylist, with no length requirement). -/
theorem C6_magic_bytes_amended (ext : Option String) (data : List Nat)
    (hlen : 8 ≤ data.length)
    (hsig : data.take 4 = [0x50, 0x4B, 0x03, 0x04] ∨
            data.take 4 = [0xD0, 0xCF, 0x11, 0xE0] ∨
            data.take 4 = [0x25, 0x50, 0x44, 0x46]) :
    is_binary_file ext (some data) = true ∧
    ∀ content : Option (List Nat), is_binary_file (some "xlsx") content = true := by
  constructor
  · cases data with
    | nil => simp at hlen
    | cons b0 d1 =>
      cases d1 with
      | nil => simp at hlen
      | cons b1 d2 =>
        cases d2 with
        | nil => simp at hlen
        | cons b2 d3 =>
          cases d3 with
          | nil => simp at hlen
          | cons b3 d4 =>
            simp only [List.take_succ_cons, List.take_zero] at hsig
            have hm : magicMatch (b0 :: b1 :: b2 :: b3 :: d4) = true := by
              rcases hsig with h | h | h <;>
                (obtain ⟨rfl, rfl, rfl, rfl⟩ := by simpa using h) <;>
                simp [magicMatch, hlen] <;> simp at hlen <;> omega
            simp [is_binary_file, hm]
  · intro content
    have hxl : asciiLower "xlsx" ∈ BINARY_EXTENSIONS := by decide
    simp [is_binary_file, hxl]

/-- Witness for C6 amended at concrete inputs. -/
theorem C6_magic_bytes_witness :
    is_binary_file (some "txt") (some [0xD0, 0xCF, 0x11, 0xE0, 0, 0, 0, 0]) = true ∧
    is_binary_file (some "xlsx") (some [0x50, 0x4B, 0x03, 0x04]) = true := by
  have h := C6_magic_bytes_amended (some "txt") [0xD0, 0xCF, 0x11, 0xE0, 0, 0, 0, 0]
    (by decide) (Or.inr (Or.inl (by decide)))
  exact ⟨h.1, h.2 (some [0x50, 0x4B, 0x03, 0x04])⟩

/-! ## Claim C5: conversion fails only on unknown encoding names -/

/-- Conversion succeeds exactly when the encoding label resolves (shared
by the error-contract and detector-totality claims). -/
theorem convert_isOk_eq_isSome (dec : DecFamily) (data : List Nat) (name : String) :
    (convert_to_utf8_bom dec data name).isOk = (forLabel name).isSome := by
  unfold convert_to_utf8_bom
  cases h : forLabel name <;> rfl

/-- C5: conversion returns an error if and only if the encoding name does
not resolve; when the name resolves it succeeds with the BOM-prefixed
re-encoding of the lossy decode — for every decode family, so in
particular independently of the decode's error flag: unmappable byte
sequences (which become U+FFFD inside the decoded string) never cause a
failure. -/
theorem C5_unknown_encoding_iff (dec : DecFamily) (data : List Nat) (name : String) :
    ((convert_to_utf8_bom dec data name).isOk = (forLabel name).isSome) ∧
    (∀ enc, forLabel name = some enc →
      convert_to_utf8_bom dec data name =
        .ok ([0xEF, 0xBB, 0xBF] ++ utf8Encode (dec enc (strip_bom data)).1)) ∧
    (forLabel name = none →
      convert_to_utf8_bom dec data name = .error ("Unknown encoding: " ++ name)) := by
  refine ⟨convert_isOk_eq_isSome dec data name, ?_, ?_⟩
  · intro enc henc
    unfold convert_to_utf8_bom
    rw [henc]
  · intro hnone
    unfold convert_to_utf8_bom
    rw [hnone]

/-- Witness for C5 at concrete inputs: a resolvable and an unresolvable
name. -/
theorem C5_unknown_encoding_witness :
    convert_to_utf8_bom w1252Family [0x41] "windows-1252" =
      .ok ([0xEF, 0xBB, 0xBF] ++
        utf8Encode (w1252Family EncodingId.windows1252 (strip_bom [0x41])).1) ∧
    convert_to_utf8_bom w1252Family [0x41] "bogus" =
      .error ("Unknown encoding: " ++ "bogus") :=
  ⟨(C5_unknown_encoding_iff w1252Family [0x41] "windows-1252").2.1 EncodingId.windows1252
      (by decide),
   (C5_unknown_encoding_iff w1252Family [0x41] "bogus").2.2 (by decide)⟩

/-! ## Claim C4: conversion round trip -/

/-- C4 counterexample: the claim fails on inputs that begin with a BOM,
because `convert_to_utf8_bom` strips the BOM before decoding while the
claim compares against decoding the original bytes.  The bytes
EF BB BF C3 A9 are valid under windows-1252 with no unmappable sequences:
`encoding_rs` decode BOM-sniffs them to UTF-8 and decodes them to the
one-character string U+00E9 with no error.  But conversion strips the BOM
and decodes C3 A9 under the windows-1252 table, giving U+00C3 U+00A9, so
decoding the conversion output (after stripping its BOM) yields
[C3, A9] ≠ [E9]. -/
theorem C4_counterexample :
    forLabel "windows-1252" = some EncodingId.windows1252 ∧
    (w1252Family EncodingId.windows1252 [0xEF, 0xBB, 0xBF, 0xC3, 0xA9]).2 = false ∧
    convert_to_utf8_bom w1252Family [0xEF, 0xBB, 0xBF, 0xC3, 0xA9] "windows-1252" =
      .ok [0xEF, 0xBB, 0xBF, 0xC3, 0x83, 0xC2, 0xA9] ∧
    utf8DecodeAux (strip_bom [0xEF, 0xBB, 0xBF, 0xC3, 0x83, 0xC2, 0xA9]) = some [0xC3, 0xA9] ∧
    (w1252Family EncodingId.windows1252 [0xEF, 0xBB, 0xBF, 0xC3, 0xA9]).1.map Char.toNat
      = [0xE9] ∧
    ([0xC3, 0xA9] : List Nat) ≠ [0xE9] :=
  ⟨by decide, by decide, rfl, by decide, by decide, by decide⟩

/-- C4 amended: the round trip holds relative to the BOM-stripped input.
For every decode family, byte sequence and resolvable encoding name, if
decoding the BOM-stripped bytes reports no error (no unmappable
sequences), conversion succeeds, and stripping the BOM from its output and
decoding the remainder as UTF-8 reproduces exactly the string obtained by
decoding the BOM-stripped original bytes under that encoding. -/
theorem C4_roundtrip_amended (dec : DecFamily) (data : List Nat) (name : String)
    (enc : EncodingId) (hname : forLabel name = some enc)
    (_herr : (dec enc (strip_bom data)).2 = false) :
    convert_to_utf8_bom dec data name =
      .ok ([0xEF, 0xBB, 0xBF] ++ utf8Encode (dec enc (strip_bom data)).1) ∧
    utf8DecodeAux (strip_bom ([0xEF, 0xBB, 0xBF] ++ utf8Encode (dec enc (strip_bom data)).1)) =
      some ((dec enc (strip_bom data)).1.map Char.toNat) := by
  constructor
  · unfold convert_to_utf8_bom
    rw [hname]
  · show utf8DecodeAux (utf8Encode (dec enc (strip_bom data)).1) = _
    exact utf8DecodeAux_encode _

/-- Witness for C4 amended at a concrete input. -/
theorem C4_roundtrip_witness :
    convert_to_utf8_bom w1252Family [0x41] "windows-1252" = .ok [0xEF, 0xBB, 0xBF, 0x41] ∧
    utf8DecodeAux (strip_bom [0xEF, 0xBB, 0xBF, 0x41]) = some [0x41] :=
  C4_roundtrip_amended w1252Family [0x41] "windows-1252" EncodingId.windows1252
    (by decide) (by decide)

/-! ## Claim C10: converted output is BOM-prefixed valid UTF-8 -/

/-- C10: for every decode family, input and encoding name, a successful
conversion output begins with the three bytes EF BB BF and satisfies
`is_already_utf8` (the bytes after the BOM are valid UTF-8); hence
re-running the pipeline on a converted output takes the already-utf8
branch and never converts again. -/
theorem C10_output_is_utf8 (dec : DecFamily) (data : List Nat) (name : String)
    (out : List Nat) (h : convert_to_utf8_bom dec data name = .ok out) :
    out.take 3 = [0xEF, 0xBB, 0xBF] ∧ is_already_utf8 out = true := by
  unfold convert_to_utf8_bom at h
  cases hn : forLabel name with
  | none =>
    rw [hn] at h
    exact absurd h (by simp)
  | some enc =>
    rw [hn] at h
    injection h with h'
    subst h'
    refine ⟨rfl, ?_⟩
    show (utf8DecodeAux (utf8Encode (dec enc (strip_bom data)).1)).isSome = true
    rw [utf8DecodeAux_encode]
    rfl

/-- Witness for C10 at a concrete input. -/
theorem C10_output_is_utf8_witness :
    List.take 3 [0xEF, 0xBB, 0xBF, 0x41] = [0xEF, 0xBB, 0xBF] ∧
    is_already_utf8 [0xEF, 0xBB, 0xBF, 0x41] = true :=
  C10_output_is_utf8 w1252Family [0x41] "windows-1252" [0xEF, 0xBB, 0xBF, 0x41] rfl

/-! ## Claim C8: deterministic, stably tie-broken ranking -/

/-- Membership in an insertion is membership in the inserted element or
the original list. -/
theorem mem_insertDesc {x a : EncodingScore} :
    ∀ {l : List EncodingScore}, a ∈ insertDesc x l → a = x ∨ a ∈ l := by
  intro l
  induction l with
  | nil =>
    intro h
    simp [insertDesc] at h
    exact Or.inl h
  | cons h t ih =>
    intro hm
    unfold insertDesc at hm
    split at hm
    · rcases List.mem_cons.mp hm with h1 | h2
      · exact Or.inr (h1 ▸ List.mem_cons_self _ _)
      · rcases ih h2 with h3 | h4
        · exact Or.inl h3
        · exact Or.inr (List.mem_cons_of_mem _ h4)
    · rcases List.mem_cons.mp hm with h1 | h2
      · exact Or.inl h1
      · exact Or.inr h2

/-- Inserting into a descending-sorted list keeps it descending-sorted. -/
theorem pairwise_insertDesc {x : EncodingScore} {l : List EncodingScore}
    (hl : l.Pairwise (fun a b => b.score ≤ a.score)) :
    (insertDesc x l).Pairwise (fun a b => b.score ≤ a.score) := by
  induction l with
  | nil => simp [insertDesc]
  | cons h t ih =>
    rcases List.pairwise_cons.mp hl with ⟨hh, ht⟩
    unfold insertDesc
    split
    · rename_i hgt
      refine List.pairwise_cons.mpr ⟨?_, ih ht⟩
      intro a ha
      rcases mem_insertDesc ha with rfl | hat
      · exact le_of_lt hgt
      · exact hh a hat
    · rename_i hng
      refine List.pairwise_cons.mpr ⟨?_, hl⟩
      intro a ha
      rcases List.mem_cons.mp ha with rfl | hat
      · exact not_lt.mp hng
      · exact le_trans (hh a hat) (not_lt.mp hng)

/-- The stable sort is descending-sorted. -/
theorem pairwise_sortDesc (l : List EncodingScore) :
    (sortDesc l).Pairwise (fun a b => b.score ≤ a.score) := by
  induction l with
  | nil => simp [sortDesc]
  | cons h t ih => exact pairwise_insertDesc ih

/-- Insertion preserves, for each score value, the subsequence of entries
with that score (elements passed over have strictly greater scores). -/
theorem filter_insertDesc (x : EncodingScore) (l : List EncodingScore) (q : ℚ) :
    (insertDesc x l).filter (fun e => decide (e.score = q)) =
      (x :: l).filter (fun e => decide (e.score = q)) := by
  induction l with
  | nil => rfl
  | cons h t ih =>
    unfold insertDesc
    split
    · rename_i hgt
      by_cases hq : h.score = q
      · by_cases hx : x.score = q
        · exact absurd hgt (by rw [hq, hx]; exact lt_irrefl q)
        · simp [List.filter_cons, hq, hx, ih]
      · simp [List.filter_cons, hq, ih]
    · rfl

/-- The stable sort preserves, for each score value, the subsequence of
entries with that score. -/
theorem filter_sortDesc (l : List EncodingScore) (q : ℚ) :
    (sortDesc l).filter (fun e => decide (e.score = q)) =
      l.filter (fun e => decide (e.score = q)) := by
  induction l with
  | nil => rfl
  | cons h t ih =>
    show (insertDesc h (sortDesc t)).filter _ = _
    rw [filter_insertDesc]
    simp only [List.filter_cons]
    rw [ih]

/-- C8: scoring is deterministic and its ranking is stable.  For every
decode family and byte sequence: `best_encoding` applied twice to the same
bytes gives the identical `EncodingScore` (the model is a pure function of
its inputs); the ranked list is sorted by descending score; and for every
score value the entries carrying that score appear in exactly the order of
the unsorted candidate-order vector — ties are broken by the fixed
iteration order of the candidate set. -/
theorem C8_deterministic_stable_ranking (dec : DecFamily) (data : List Nat) :
    best_encoding dec data = best_encoding dec data ∧
    (score_all_encodings dec data).Pairwise (fun a b => b.score ≤ a.score) ∧
    ∀ q : ℚ, (score_all_encodings dec data).filter (fun e => decide (e.score = q)) =
      (rawScores dec data).filter (fun e => decide (e.score = q)) :=
  ⟨rfl, pairwise_sortDesc _, fun q => filter_sortDesc _ q⟩

/-! ## Claim C9: detection only yields convertible names -/

/-- Every score produced by `score_encoding` carries the candidate name it
was called with. -/
theorem score_encoding_name (name : String) (decoded : List Char) (had_errors : Bool) :
    (score_encoding name decoded had_errors).encoding_name = name := by
  by_cases h0 : decoded.length = 0 <;> simp [score_encoding, h0]

/-- Every entry of the unsorted score vector has a resolvable name. -/
theorem rawScores_name_resolves (dec : DecFamily) (data : List Nat) :
    ∀ x ∈ rawScores dec data, (forLabel x.encoding_name).isSome = true := by
  intro x hx
  rcases List.mem_filterMap.mp hx with ⟨name, hmem, hsome⟩
  rcases Option.map_eq_some'.mp hsome with ⟨enc, henc, hx'⟩
  subst hx'
  rw [score_encoding_name, henc]
  rfl

/-- Every entry of the sorted score vector has a resolvable name. -/
theorem score_all_name_resolves (dec : DecFamily) (data : List Nat) :
    ∀ x ∈ score_all_encodings dec data, (forLabel x.encoding_name).isSome = true := by
  intro x hx
  have hraw : x ∈ rawScores dec data := by
    unfold score_all_encodings at hx
    generalize hgen : rawScores dec data = raw at *
    clear hgen
    induction raw with
    | nil => simpa [sortDesc] using hx
    | cons h t ih =>
      rcases mem_insertDesc hx with rfl | h2
      · exact List.mem_cons_self _ _
      · exact List.mem_cons_of_mem _ (ih h2)
  exact rawScores_name_resolves dec data x hraw

/-- C9: for every decode family and byte sequence, converting with the
name produced by `smart_detect_encoding` succeeds: the detector only
returns names that resolve to supported encodings (the three BOM names or
a candidate's name, with the synthetic UTF-8 default), so the conversion
engine's unknown-encoding branch is unreachable from a detection result. -/
theorem C9_detection_convertible (dec : DecFamily) (data : List Nat) :
    (convert_to_utf8_bom dec data (smart_detect_encoding dec data).encoding_name).isOk = true := by
  have hres : (forLabel (smart_detect_encoding dec data).encoding_name).isSome = true := by
    unfold smart_detect_encoding
    split
    · rfl
    · rfl
    · rfl
    · show (forLabel (best_encoding dec data).encoding_name).isSome = true
      unfold best_encoding
      cases hs : score_all_encodings dec data with
      | nil => rfl
      | cons best tl =>
        have : best ∈ score_all_encodings dec data := hs ▸ List.mem_cons_self _ _
        exact score_all_name_resolves dec data best this
  rw [convert_isOk_eq_isSome, hres]

/-! ## Claim C1: the batch partition invariant -/

/-- Every per-file outcome records the path it was produced for. -/
theorem processOne_file_path (env : Env) (p : String) :
    (processOne env p).file_path = p := by
  unfold processOne
  repeat' (first | split | dsimp only)
  all_goals rfl

/-- Every per-file outcome carries one of the four terminal statuses. -/
theorem processOne_status_mem (env : Env) (p : String) :
    (processOne env p).status = "converted" ∨ (processOne env p).status = "already_utf8" ∨
    (processOne env p).status = "binary" ∨ (processOne env p).status = "error" := by
  unfold processOne
  repeat' (first | split | dsimp only)
  all_goals simp

/-- The batch loop appends exactly one outcome per path, in order. -/
theorem batch_foldl_results (env : Env) :
    ∀ (paths : List String) (acc : BatchAcc),
      (paths.foldl (batchStepAcc env) acc).results = acc.results ++ paths.map (processOne env)
  | [], acc => by simp
  | p :: t, acc => by
    show (t.foldl (batchStepAcc env) (batchStepAcc env acc p)).results = _
    rw [batch_foldl_results env t (batchStepAcc env acc p)]
    show (acc.results ++ [processOne env p]) ++ t.map (processOne env) = _
    simp

/-- Each counter of the batch loop counts exactly the outcomes pushed with
the matching status. -/
theorem batch_foldl_counts (env : Env) :
    ∀ (paths : List String) (acc : BatchAcc),
      (paths.foldl (batchStepAcc env) acc).converted
          = acc.converted +
            (paths.map (processOne env)).countP (fun r => decide (r.status = "converted")) ∧
      (paths.foldl (batchStepAcc env) acc).already_utf8
          = acc.already_utf8 +
            (paths.map (processOne env)).countP (fun r => decide (r.status = "already_utf8")) ∧
      (paths.foldl (batchStepAcc env) acc).binary
          = acc.binary +
            (paths.map (processOne env)).countP (fun r => decide (r.status = "binary")) ∧
      (paths.foldl (batchStepAcc env) acc).errors
          = acc.errors +
            (paths.map (processOne env)).countP (fun r => decide (r.status = "error"))
  | [], acc => by simp
  | p :: t, acc => by
    obtain ⟨h1, h2, h3, h4⟩ := batch_foldl_counts env t (batchStepAcc env acc p)
    simp only [List.foldl_cons, List.map_cons, List.countP_cons, decide_eq_true_eq]
    refine ⟨?_, ?_, ?_, ?_⟩
    · rw [h1]
      show (if (processOne env p).status = "converted" then acc.converted + 1
        else acc.converted) + _ = _
      by_cases hc : (processOne env p).status = "converted" <;> simp [hc] <;> omega
    · rw [h2]
      show (if (processOne env p).status = "already_utf8" then acc.already_utf8 + 1
        else acc.already_utf8) + _ = _
      by_cases hc : (processOne env p).status = "already_utf8" <;> simp [hc] <;> omega
    · rw [h3]
      show (if (processOne env p).status = "binary" then acc.binary + 1
        else acc.binary) + _ = _
      by_cases hc : (processOne env p).status = "binary" <;> simp [hc] <;> omega
    · rw [h4]
      show (if (processOne env p).status = "error" then acc.errors + 1
        else acc.errors) + _ = _
      by_cases hc : (processOne env p).status = "error" <;> simp [hc] <;> omega

/-- A list in which every element carries one of the four statuses is
partitioned by the four status counts. -/
theorem countP_four_statuses (l : List BatchFileResult)
    (h : ∀ r ∈ l, r.status = "converted" ∨ r.status = "already_utf8" ∨
      r.status = "binary" ∨ r.status = "error") :
    l.countP (fun r => decide (r.status = "converted")) +
      l.countP (fun r => decide (r.status = "already_utf8")) +
      l.countP (fun r => decide (r.status = "binary")) +
      l.countP (fun r => decide (r.status = "error")) = l.length := by
  induction l with
  | nil => rfl
  | cons a t ih =>
    have ha := h a (List.mem_cons_self _ _)
    have ht := ih (fun r hr => h r (List.mem_cons_of_mem _ hr))
    simp only [List.countP_cons, List.length_cons, decide_eq_true_eq]
    rcases ha with ha | ha | ha | ha <;> simp [ha] <;> omega

/-- The outcomes of a batch record the input paths in order. -/
theorem map_processOne_path (env : Env) :
    ∀ paths : List String,
      (paths.map (processOne env)).map (fun r => r.file_path) = paths
  | [] => rfl
  | p :: t => by
    simp only [List.map_cons, processOne_file_path, map_processOne_path env t]

/-- C1: for every environment and list of N input paths, `batch_convert`
returns a report whose results list has exactly N entries carrying the
input paths in input order, whose `total` is N, whose four tallies sum to
N, and whose tallies each count exactly the outcomes with the matching
status — so each input path is counted in exactly one tally. -/
theorem C1_batch_partition (env : Env) (file_paths : List String) :
    (batch_convert env file_paths).results.length = file_paths.length ∧
    (batch_convert env file_paths).results.map (fun r => r.file_path) = file_paths ∧
    (batch_convert env file_paths).total = file_paths.length ∧
    (batch_convert env file_paths).converted + (batch_convert env file_paths).already_utf8 +
      (batch_convert env file_paths).binary + (batch_convert env file_paths).errors
      = file_paths.length ∧
    (batch_convert env file_paths).converted
      = (batch_convert env file_paths).results.countP (fun r => decide (r.status = "converted")) ∧
    (batch_convert env file_paths).already_utf8
      = (batch_convert env file_paths).results.countP
          (fun r => decide (r.status = "already_utf8")) ∧
    (batch_convert env file_paths).binary
      = (batch_convert env file_paths).results.countP (fun r => decide (r.status = "binary")) ∧
    (batch_convert env file_paths).errors
      = (batch_convert env file_paths).results.countP (fun r => decide (r.status = "error")) := by
  have hres : (batch_convert env file_paths).results = file_paths.map (processOne env) := by
    show (file_paths.foldl (batchStepAcc env) ⟨[], 0, 0, 0, 0⟩).results = _
    rw [batch_foldl_results env file_paths ⟨[], 0, 0, 0, 0⟩]
    rfl
  obtain ⟨h1, h2, h3, h4⟩ := batch_foldl_counts env file_paths ⟨[], 0, 0, 0, 0⟩
  have hconv : (batch_convert env file_paths).converted
      = (file_paths.map (processOne env)).countP (fun r => decide (r.status = "converted")) := by
    simpa using h1
  have hutf : (batch_convert env file_paths).already_utf8
      = (file_paths.map (processOne env)).countP (fun r => decide (r.status = "already_utf8")) := by
    simpa using h2
  have hbin : (batch_convert env file_paths).binary
      = (file_paths.map (processOne env)).countP (fun r => decide (r.status = "binary")) := by
    simpa using h3
  have herr2 : (batch_convert env file_paths).errors
      = (file_paths.map (processOne env)).countP (fun r => decide (r.status = "error")) := by
    simpa using h4
  have hstat : ∀ r ∈ file_paths.map (processOne env),
      r.status = "converted" ∨ r.status = "already_utf8" ∨
      r.status = "binary" ∨ r.status = "error" := by
    intro r hr
    rcases List.mem_map.mp hr with ⟨p, _, rfl⟩
    exact processOne_status_mem env p
  refine ⟨?_, ?_, rfl, ?_, ?_, ?_, ?_, ?_⟩
  · rw [hres, List.length_map]
  · rw [hres, map_processOne_path]
  · rw [hconv, hutf, hbin, herr2, countP_four_statuses _ hstat, List.length_map]
  · rw [hconv, hres]
  · rw [hutf, hres]
  · rw [hbin, hres]
  · rw [herr2, hres]
